import Mathlib

/-!
Verification of the Render Progress Simulator and the scene drag-reorder
operation of the `ai-text-to-video-website` repository.

The model below is a shallow embedding of
`src/frontend/src/components/AnimatedAvatar.jsx` (the `STAGES` table,
`startProgressAnimation`, `stopProgress` and the surrounding `render`
success/failure paths, lines 332-388 and 587-630) together with the
`dragOver` scene-reorder handler (line 470, identical to the one in the
second `VideoCreator` component) and the `stgs` table of that second
component (`src/unnamed/part_002`).

Modelling conventions:
* JavaScript wall-clock times and stage durations are rationals (ms).
* `setTimeout` / `clearTimeout` are modelled by an explicit list of
  pending timers carrying fresh numeric ids; ids start at 1 so that the
  JS truthiness test `if (progressTimerRef.current)` coincides with the
  `Option` match in `stopProgress`.
* The browser event loop is single threaded; a run of the driver keeps at
  most one pending timer, and `stepSys` fires it.  Firing a timer removes
  it from the pending list (a fired timeout does not linger).
* `Math.round` is `jsRound`, i.e. `⌊x + 1/2⌋`.
* A thrown TypeError (only possible reading `STAGES[0].label` of an empty
  table) is modelled by the `crashed` flag; no claim exercises it.
-/

namespace AvatarProgress

/-- One entry of the `STAGES` table: target percentage, stage label and
the wall-clock duration allotted to the stage. -/
structure StageEntry where
  pct : ℚ
  label : String
  ms : ℚ
deriving DecidableEq, Inhabited

/-- The callbacks the driver passes to `setTimeout`: the outer `tick`,
and the inner `interpolate` closure, which captures the `current` and
`next` stage entries and the `stageStart` timestamp. -/
inductive Cb where
  | tick : Cb
  | interp (current next : StageEntry) (stageStart : ℚ) : Cb
deriving DecidableEq

/-- The mutable component state touched by the progress driver:
`nextId`/`pending` model the browser timer queue, `ref` is
`progressTimerRef.current`, `stageIdx` the tick chain's closure variable,
`progress`/`stageLabel` the React state set by `setProgress`/`setStage`,
`rendering` the `rendering` flag, and `crashed` records a thrown
exception. -/
structure Sys where
  nextId : ℕ
  pending : List (ℕ × ℚ × Cb)
  ref : Option ℕ
  stageIdx : ℕ
  progress : ℤ
  stageLabel : String
  rendering : Bool
  crashed : Bool
deriving DecidableEq

/-- `Math.round`. -/
def jsRound (x : ℚ) : ℤ := ⌊x + 1 / 2⌋

/-- `setTimeout(cb, delay)` called at some moment: schedules `cb` at the
absolute time `fireAt` under a fresh id and returns the id. -/
def jsSetTimeout (s : Sys) (fireAt : ℚ) (cb : Cb) : Sys × ℕ :=
  ({ s with nextId := s.nextId + 1, pending := s.pending ++ [(s.nextId, fireAt, cb)] },
    s.nextId)

/-- `clearTimeout(i)`: removes the timer with id `i`, if still pending. -/
def jsClearTimeout (s : Sys) (i : ℕ) : Sys :=
  { s with pending := s.pending.filter (fun e => e.1 != i) }

/-- The interpolation value computed by one `interpolate` call:
`current.pct + (next.pct - current.pct) * min(elapsed / current.ms, 1)`. -/
def interpPct (current next : StageEntry) (elapsed : ℚ) : ℚ :=
  current.pct + (next.pct - current.pct) * min (elapsed / current.ms) 1

/-- The body of the `interpolate` closure, fired at time `now` with the
captured `current`, `next` and `stageStart`.  It writes the rounded
interpolated percentage; while the fraction is below 1 it re-schedules
itself 80ms later, otherwise it advances `stageIdx`, updates the label
and schedules the next `tick` 100ms later. -/
def fireInterp (tbl : List StageEntry) (s : Sys) (current next : StageEntry)
    (stageStart now : ℚ) : Sys :=
  let elapsed := now - stageStart
  let frac := min (elapsed / current.ms) 1
  let s1 := { s with progress := jsRound (interpPct current next elapsed) }
  if frac < 1 then
    let p := jsSetTimeout s1 (now + 80) (Cb.interp current next stageStart)
    { p.1 with ref := some p.2 }
  else
    let s2 := { s1 with stageIdx := s1.stageIdx + 1 }
    if s2.stageIdx < tbl.length then
      let s3 := { s2 with stageLabel := (tbl.getD s2.stageIdx default).label }
      let p := jsSetTimeout s3 (now + 100) Cb.tick
      { p.1 with ref := some p.2 }
    else s2

/-- The `tick` callback, fired at time `t`.  It returns at once when
`stageIdx >= STAGES.length - 1` (also the JS behaviour of `0 >= -1` for
an empty table); otherwise it reads the current and next entries (both in
bounds thanks to that guard) and immediately runs the first `interpolate`
with `stageStart = t`. -/
def fireTick (tbl : List StageEntry) (s : Sys) (t : ℚ) : Sys :=
  if tbl.length - 1 ≤ s.stageIdx then s
  else
    fireInterp tbl s (tbl.getD s.stageIdx default) (tbl.getD (s.stageIdx + 1) default) t t

/-- One turn of the event loop: fire the pending timer, if any.  The
fired timer is consumed; the callback may schedule a successor. -/
def stepSys (tbl : List StageEntry) (s : Sys) : Sys :=
  match s.pending with
  | [] => s
  | (_, t, cb) :: rest =>
    let s1 := { s with pending := rest }
    match cb with
    | Cb.tick => fireTick tbl s1 t
    | Cb.interp c nx st0 => fireInterp tbl s1 c nx st0 t

/-- `startProgressAnimation`, called at time `t`: resets `stageIdx` and
`progress`, shows the first stage's label and schedules the first `tick`
200ms later.  It performs no `clearTimeout`.  On an empty table the read
`STAGES[0].label` throws, after `setProgress(0)` already ran. -/
def startProgressAnimation (tbl : List StageEntry) (s : Sys) (t : ℚ) : Sys :=
  match tbl.head? with
  | none => { s with stageIdx := 0, progress := 0, crashed := true }
  | some e0 =>
    let s1 := { s with stageIdx := 0, progress := 0, stageLabel := e0.label }
    let p := jsSetTimeout s1 (t + 200) Cb.tick
    { p.1 with ref := some p.2 }

/-- `stopProgress(success)`: clears the timer currently referenced by
`progressTimerRef` and forces the terminal display state. -/
def stopProgress (s : Sys) (success : Bool) : Sys :=
  let s1 := match s.ref with
    | some i => jsClearTimeout s i
    | none => s
  if success then { s1 with progress := 100, stageLabel := "Complete! ✅" }
  else { s1 with progress := 0, stageLabel := "" }

/-- The `render()` entry path: `setRendering(true)` then
`startProgressAnimation()`. -/
def renderBegin (tbl : List StageEntry) (s : Sys) (t : ℚ) : Sys :=
  startProgressAnimation tbl { s with rendering := true } t

/-- The `render()` success path: `stopProgress(true)` in the response
handler, then `setRendering(false)` in the `finally` block. -/
def renderSuccessEnd (s : Sys) : Sys :=
  { stopProgress s true with rendering := false }

/-- The `render()` failure path (error payload or thrown fetch error):
`stopProgress(false)`, then `setRendering(false)` in `finally`. -/
def renderFailureEnd (s : Sys) : Sys :=
  { stopProgress s false with rendering := false }

/-- Component state before any run. -/
def initSys : Sys :=
  { nextId := 1, pending := [], ref := none, stageIdx := 0, progress := 0,
    stageLabel := "", rendering := false, crashed := false }

/-- The state after `startProgressAnimation` at time `t` followed by `n`
turns of the event loop. -/
def runP (tbl : List StageEntry) (t : ℚ) (n : ℕ) : Sys :=
  (stepSys tbl)^[n] (startProgressAnimation tbl initSys t)

/-- The fixed `STAGES` table of `AnimatedAvatar.jsx`. -/
def STAGES : List StageEntry :=
  [ ⟨5,  "Initializing...",           800⟩,
    ⟨12, "Generating audio (TTS)...", 3000⟩,
    ⟨20, "Running Wav2Lip...",        8000⟩,
    ⟨38, "Animating avatar...",       8000⟩,
    ⟨50, "Loading alpha mask...",     2000⟩,
    ⟨62, "Compositing frames...",     5000⟩,
    ⟨75, "Encoding video...",         7000⟩,
    ⟨88, "Encoding audio...",         4000⟩,
    ⟨96, "Finalizing...",             3000⟩ ]

/-- The spec §8 example Stage Table
`[{threshold:10,label:"A",durationMs:1000},{threshold:100,label:"B",durationMs:1000}]`. -/
def twoStages : List StageEntry := [⟨10, "A", 1000⟩, ⟨100, "B", 1000⟩]

/-- One entry of the `stgs` table of the second `VideoCreator` component
(`src/unnamed/part_002`). -/
structure P2Stage where
  progress : ℤ
  stage : String
deriving DecidableEq, Inhabited

/-- The `stgs` table of `src/unnamed/part_002`. -/
def stgs : List P2Stage :=
  [ ⟨10, "Processing scenes..."⟩,
    ⟨25, "Generating audio..."⟩,
    ⟨40, "Processing images..."⟩,
    ⟨60, "Compositing video..."⟩,
    ⟨80, "Encoding video..."⟩,
    ⟨95, "Finalizing..."⟩ ]

/-- The §3 table invariant as the claims use it: a non-empty table with
strictly increasing thresholds lying in `[0,100]` and positive stage
durations. -/
def ValidTable (tbl : List StageEntry) : Prop :=
  0 < tbl.length ∧ List.Chain' (fun a b => a.pct < b.pct) tbl ∧
    (∀ e ∈ tbl, 0 ≤ e.pct ∧ e.pct ≤ 100) ∧ ∀ e ∈ tbl, 0 < e.ms

instance : DecidableRel fun a b : StageEntry => a.pct < b.pct :=
  fun a b => inferInstanceAs (Decidable (a.pct < b.pct))

instance (tbl : List StageEntry) : Decidable (ValidTable tbl) :=
  inferInstanceAs (Decidable (_ ∧ _ ∧ _ ∧ _))

instance : IsTrans StageEntry fun a b => a.pct < b.pct :=
  ⟨fun _ _ _ h1 h2 => lt_trans h1 h2⟩

/-- The threshold of the last table entry (index `length - 1`). -/
def lastPct (tbl : List StageEntry) : ℚ :=
  (tbl.getD (tbl.length - 1) default).pct

/-- The state invariant maintained along a single run, relative to the
unique pending timer: the timer's id is the one held in
`progressTimerRef`, an `interpolate` callback's captured entries are the
`stageIdx`-th and next entries of the table, its stage start precedes its
fire time, and the recorded progress never exceeds the value the callback
will write when it fires. -/
def PendOK (tbl : List StageEntry) (s : Sys) : ℕ × ℚ × Cb → Prop
  | (i, _, Cb.tick) =>
      s.ref = some i ∧
      (s.stageIdx + 1 < tbl.length →
        s.progress ≤ jsRound ((tbl.getD s.stageIdx default).pct))
  | (i, t, Cb.interp c nx st0) =>
      s.ref = some i ∧ tbl.getD s.stageIdx default = c ∧
      tbl.getD (s.stageIdx + 1) default = nx ∧ s.stageIdx + 1 < tbl.length ∧
      st0 ≤ t ∧ s.progress ≤ jsRound (interpPct c nx (t - st0))

/-- Full run invariant: the displayed progress is bounded by the rounded
last threshold, and the timer queue is empty or a single good timer. -/
def Inv (tbl : List StageEntry) (s : Sys) : Prop :=
  s.progress ≤ jsRound (lastPct tbl) ∧
  (s.pending = [] ∨ ∃ p, s.pending = [p] ∧ PendOK tbl s p)

/-- The `dragOver` scene-reorder handler, on the scene list: a `null`
`draggedIdx` (or one equal to the hover index) leaves the list alone;
otherwise the dragged element is read, removed at `draggedIdx` and
re-inserted at `idx`. -/
def dragOver {α : Type} [Inhabited α] (l : List α) (draggedIdx : Option ℕ)
    (idx : ℕ) : List α :=
  match draggedIdx with
  | none => l
  | some di =>
    if di = idx then l
    else (l.eraseIdx di).insertIdx idx (l.getD di default)

attribute [local semireducible] Rat.add Rat.sub Rat.mul Rat.inv

set_option maxRecDepth 8000

lemma jsRound_mono {x y : ℚ} (h : x ≤ y) : jsRound x ≤ jsRound y :=
  Int.floor_mono (by linarith)

lemma jsRound_nonneg {x : ℚ} (h : 0 ≤ x) : 0 ≤ jsRound x :=
  Int.le_floor.mpr (by push_cast; linarith)

lemma getD_mem_of_lt (tbl : List StageEntry) {i : ℕ} (h : i < tbl.length) :
    tbl.getD i default ∈ tbl := by
  rw [List.getD_eq_getElem _ _ h]
  exact List.getElem_mem h

lemma pct_getD_le (tbl : List StageEntry)
    (hc : List.Chain' (fun a b => a.pct < b.pct) tbl)
    {i j : ℕ} (hij : i ≤ j) (hj : j < tbl.length) :
    (tbl.getD i default).pct ≤ (tbl.getD j default).pct := by
  rcases eq_or_lt_of_le hij with rfl | hlt
  · exact le_refl _
  · have hi : i < tbl.length := lt_trans hlt hj
    have hp := (List.chain'_iff_pairwise).mp hc
    have hx := List.pairwise_iff_getElem.mp hp i j hi hj hlt
    rw [List.getD_eq_getElem _ _ hi, List.getD_eq_getElem _ _ hj]
    exact le_of_lt hx

lemma interpPct_mono {c nx : StageEntry} (hms : 0 < c.ms) (hpct : c.pct ≤ nx.pct)
    {e1 e2 : ℚ} (h : e1 ≤ e2) : interpPct c nx e1 ≤ interpPct c nx e2 := by
  unfold interpPct
  have hd : 0 ≤ nx.pct - c.pct := by linarith
  have h1 : min (e1 / c.ms) 1 ≤ min (e2 / c.ms) 1 := by gcongr
  have h2 := mul_le_mul_of_nonneg_left h1 hd
  linarith

lemma interpPct_le {c nx : StageEntry} (hpct : c.pct ≤ nx.pct) (e : ℚ) :
    interpPct c nx e ≤ nx.pct := by
  unfold interpPct
  have hd : 0 ≤ nx.pct - c.pct := by linarith
  have h2 := mul_le_mul_of_nonneg_left (min_le_right (e / c.ms) 1) hd
  linarith

lemma interpPct_zero (c nx : StageEntry) : interpPct c nx 0 = c.pct := by
  unfold interpPct
  rw [zero_div, min_eq_left (by norm_num : (0:ℚ) ≤ 1)]
  ring

lemma min_eq_one_of_not_lt {x : ℚ} (h : ¬ min x 1 < 1) : min x 1 = 1 :=
  le_antisymm (min_le_right _ _) (not_lt.mp h)

lemma interpPct_of_frac_one {c nx : StageEntry} {e : ℚ}
    (h : min (e / c.ms) 1 = 1) : interpPct c nx e = nx.pct := by
  unfold interpPct
  rw [h]
  ring

lemma fireInterp_eq_lt (tbl : List StageEntry) (s : Sys) (c nx : StageEntry)
    (st0 now : ℚ) (h : min ((now - st0) / c.ms) 1 < 1) :
    fireInterp tbl s c nx st0 now =
      { s with progress := jsRound (interpPct c nx (now - st0)),
               nextId := s.nextId + 1,
               pending := s.pending ++ [(s.nextId, now + 80, Cb.interp c nx st0)],
               ref := some s.nextId } := by
  simp only [fireInterp, jsSetTimeout, if_pos h]

lemma fireInterp_eq_adv (tbl : List StageEntry) (s : Sys) (c nx : StageEntry)
    (st0 now : ℚ) (h : ¬ min ((now - st0) / c.ms) 1 < 1)
    (hidx : s.stageIdx + 1 < tbl.length) :
    fireInterp tbl s c nx st0 now =
      { s with progress := jsRound (interpPct c nx (now - st0)),
               stageIdx := s.stageIdx + 1,
               stageLabel := (tbl.getD (s.stageIdx + 1) default).label,
               nextId := s.nextId + 1,
               pending := s.pending ++ [(s.nextId, now + 100, Cb.tick)],
               ref := some s.nextId } := by
  simp only [fireInterp, jsSetTimeout, if_neg h, if_pos hidx]

lemma start_cons (e : StageEntry) (tl : List StageEntry) (s : Sys) (t : ℚ) :
    startProgressAnimation (e :: tl) s t =
      { s with stageIdx := 0, progress := 0, stageLabel := e.label,
               nextId := s.nextId + 1,
               pending := s.pending ++ [(s.nextId, t + 200, Cb.tick)],
               ref := some s.nextId } := by
  simp only [startProgressAnimation, jsSetTimeout, List.head?]

lemma stepSys_of_pending_nil (tbl : List StageEntry) {s : Sys}
    (h : s.pending = []) : stepSys tbl s = s := by
  rw [stepSys, h]

lemma stepSys_of_pending_tick (tbl : List StageEntry) {s : Sys} {i : ℕ} {t : ℚ}
    (h : s.pending = [(i, t, Cb.tick)]) :
    stepSys tbl s = fireTick tbl { s with pending := [] } t := by
  rw [stepSys, h]

lemma stepSys_of_pending_interp (tbl : List StageEntry) {s : Sys} {i : ℕ}
    {t : ℚ} {c nx : StageEntry} {st0 : ℚ}
    (h : s.pending = [(i, t, Cb.interp c nx st0)]) :
    stepSys tbl s = fireInterp tbl { s with pending := [] } c nx st0 t := by
  rw [stepSys, h]

lemma step_preserves (tbl : List StageEntry) (hv : ValidTable tbl) (s : Sys)
    (h : Inv tbl s) :
    Inv tbl (stepSys tbl s) ∧ s.progress ≤ (stepSys tbl s).progress := by
  obtain ⟨hb, hp⟩ := h
  obtain ⟨hne, hchain, hrange, hms⟩ := hv
  rcases hp with hnil | ⟨⟨i, t, cb⟩, hpend, hok⟩
  · rw [stepSys, hnil]
    exact ⟨⟨hb, Or.inl hnil⟩, le_refl _⟩
  · cases cb with
    | tick =>
      obtain ⟨href, hprog⟩ := hok
      rw [stepSys_of_pending_tick tbl hpend]
      simp only [fireTick]
      split_ifs with hguard
      · exact ⟨⟨hb, Or.inl rfl⟩, le_refl _⟩
      · have hidx : s.stageIdx + 1 < tbl.length := by omega
        have hkl : s.stageIdx < tbl.length := by omega
        have hpr := hprog hidx
        have hfr : min ((t - t) / (tbl.getD s.stageIdx default).ms) 1 < 1 := by
          rw [sub_self, zero_div]
          norm_num
        rw [fireInterp_eq_lt tbl _ _ _ t t hfr]
        have hc0 : interpPct (tbl.getD s.stageIdx default)
            (tbl.getD (s.stageIdx + 1) default) (t - t) =
            (tbl.getD s.stageIdx default).pct := by
          rw [sub_self, interpPct_zero]
        have hmsk : 0 < (tbl.getD s.stageIdx default).ms :=
          hms _ (getD_mem_of_lt tbl hkl)
        have hpck : (tbl.getD s.stageIdx default).pct ≤
            (tbl.getD (s.stageIdx + 1) default).pct :=
          pct_getD_le tbl hchain (Nat.le_succ _) hidx
        refine ⟨⟨?_, Or.inr ⟨_, rfl, ?_, ?_, ?_, ?_, ?_, ?_⟩⟩, ?_⟩
        · rw [hc0]
          exact le_trans (jsRound_mono (pct_getD_le tbl hchain
            (by omega : s.stageIdx ≤ tbl.length - 1)
            (by omega : tbl.length - 1 < tbl.length))) (le_refl _)
        · rfl
        · rfl
        · rfl
        · exact hidx
        · linarith
        · rw [hc0]
          refine jsRound_mono (le_trans (le_of_eq hc0.symm) ?_)
          exact interpPct_mono hmsk hpck (by linarith)
        · rw [hc0]
          exact hpr
    | interp c nx st0 =>
      obtain ⟨href, hc, hnx, hidx, hst, hprog⟩ := hok
      rw [stepSys_of_pending_interp tbl hpend]
      have hkl : s.stageIdx < tbl.length := by omega
      have hmsk : 0 < c.ms := by
        rw [← hc]
        exact hms _ (getD_mem_of_lt tbl hkl)
      have hpck : c.pct ≤ nx.pct := by
        rw [← hc, ← hnx]
        exact pct_getD_le tbl hchain (Nat.le_succ _) hidx
      have hlast : nx.pct ≤ lastPct tbl := by
        rw [← hnx]
        exact pct_getD_le tbl hchain (by omega : s.stageIdx + 1 ≤ tbl.length - 1)
          (by omega : tbl.length - 1 < tbl.length)
      by_cases hfr : min ((t - st0) / c.ms) 1 < 1
      · rw [fireInterp_eq_lt tbl _ _ _ _ _ hfr]
        refine ⟨⟨?_, Or.inr ⟨_, rfl, ?_, ?_, ?_, ?_, ?_, ?_⟩⟩, ?_⟩
        · exact le_trans (jsRound_mono (le_trans (interpPct_le hpck _) hlast))
            (le_refl _)
        · rfl
        · exact hc
        · exact hnx
        · exact hidx
        · linarith
        · exact jsRound_mono (interpPct_mono hmsk hpck (by linarith))
        · exact hprog
      · rw [fireInterp_eq_adv tbl { s with pending := [] } c nx st0 t hfr hidx]
        have hval : interpPct c nx (t - st0) = nx.pct :=
          interpPct_of_frac_one (min_eq_one_of_not_lt hfr)
        refine ⟨⟨?_, Or.inr ⟨_, rfl, ?_, ?_⟩⟩, ?_⟩
        · rw [hval]
          exact jsRound_mono hlast
        · rfl
        · intro hidx2
          rw [hval, ← hnx]
        · exact hprog

lemma inv_start (tbl : List StageEntry) (hv : ValidTable tbl) (s : Sys) (t : ℚ)
    (hp : s.pending = []) : Inv tbl (startProgressAnimation tbl s t) := by
  obtain ⟨hne, hchain, hrange, hms⟩ := hv
  obtain ⟨e0, tl, rfl⟩ := List.exists_cons_of_ne_nil (List.length_pos.mp hne)
  rw [start_cons, hp]
  have hlen : (e0 :: tl).length - 1 < (e0 :: tl).length := by
    simp
  have h0 : (0:ℤ) ≤ jsRound (lastPct (e0 :: tl)) := by
    apply jsRound_nonneg
    exact (hrange _ (getD_mem_of_lt _ hlen)).1
  refine ⟨h0, Or.inr ⟨_, rfl, rfl, ?_⟩⟩
  intro hidx
  apply jsRound_nonneg
  exact (hrange _ (getD_mem_of_lt _ (by omega : 0 < (e0 :: tl).length))).1

lemma inv_iter (tbl : List StageEntry) (hv : ValidTable tbl) {s : Sys}
    (h : Inv tbl s) (n : ℕ) :
    Inv tbl ((stepSys tbl)^[n] s) ∧ s.progress ≤ ((stepSys tbl)^[n] s).progress := by
  induction n with
  | zero => exact ⟨h, le_refl _⟩
  | succ n ih =>
    rw [Function.iterate_succ_apply']
    have h2 := step_preserves tbl hv _ ih.1
    exact ⟨h2.1, le_trans ih.2 h2.2⟩

lemma validTable_STAGES : ValidTable STAGES := by
  simp [ValidTable, STAGES, List.chain'_cons]
  norm_num

lemma validTable_twoStages : ValidTable twoStages := by
  simp [ValidTable, twoStages, List.chain'_cons]
  norm_num

/-- C1: for every Stage Table satisfying the §3 invariant (non-empty,
strictly increasing thresholds), the sequence of `currentPercent` values
produced by successive ticks of the progress driver after `start()` is
non-decreasing (no `stop()` occurs along `runP`). -/
theorem c1_progress_monotone (tbl : List StageEntry) (hv : ValidTable tbl)
    (t : ℚ) (m n : ℕ) (hmn : m ≤ n) :
    (runP tbl t m).progress ≤ (runP tbl t n).progress := by
  have hs : Inv tbl (startProgressAnimation tbl initSys t) :=
    inv_start tbl hv initSys t rfl
  have h1 := (inv_iter tbl hv hs m).1
  have key : runP tbl t n = (stepSys tbl)^[n - m] (runP tbl t m) := by
    rw [runP, runP, ← Function.iterate_add_apply]
    congr 1
    omega
  rw [key]
  exact (inv_iter tbl hv h1 (n - m)).2

/-- C1 witness: the monotonicity theorem instantiated at the program's
`STAGES` table between event-loop turns 1 and 3. -/
theorem c1_progress_monotone_witness :
    ValidTable STAGES ∧ (1:ℕ) ≤ 3 ∧
      (runP STAGES 0 1).progress ≤ (runP STAGES 0 3).progress :=
  ⟨validTable_STAGES, by decide, c1_progress_monotone STAGES validTable_STAGES 0 1 3 (by decide)⟩

/-- C2 counterexample: calling `startProgressAnimation` twice does not
cancel the prior timer chain — after a double start two timers (ids 1 and
2, both `tick`s) are pending, refuting that exactly one tick chain is
active with the prior chain fully cancelled. -/
theorem c2_double_start_cex :
    (startProgressAnimation STAGES (startProgressAnimation STAGES initSys 0) 0).pending.length = 2 ∧
    ((startProgressAnimation STAGES (startProgressAnimation STAGES initSys 0) 0).pending.map
        (fun e => e.1)) = [1, 2] := by
  decide

/-- C2 amended: `startProgressAnimation` only appends a new timer and
overwrites `progressTimerRef`; it never clears the previous timeout, so
after two successive starts the first run's scheduled tick is still
pending alongside the new one. -/
theorem c2_double_start_amended (tbl : List StageEntry) (e : StageEntry)
    (s : Sys) (t t' : ℚ) (h : tbl.head? = some e) :
    (startProgressAnimation tbl s t).pending
        = s.pending ++ [(s.nextId, t + 200, Cb.tick)] ∧
    (startProgressAnimation tbl (startProgressAnimation tbl s t) t').pending
        = s.pending ++ [(s.nextId, t + 200, Cb.tick),
                        (s.nextId + 1, t' + 200, Cb.tick)] := by
  obtain ⟨e0, tl, rfl⟩ : ∃ e0 tl, tbl = e0 :: tl := by
    cases tbl with
    | nil => simp at h
    | cons a l => exact ⟨a, l, rfl⟩
  rw [start_cons, start_cons]
  constructor
  · rfl
  · simp

/-- C2 amended witness: the double-start timer bookkeeping at the
program's `STAGES` table from the idle state. -/
theorem c2_double_start_amended_witness :
    STAGES.head? = some ⟨5, "Initializing...", 800⟩ ∧
    ((startProgressAnimation STAGES initSys 0).pending
        = initSys.pending ++ [(initSys.nextId, 0 + 200, Cb.tick)] ∧
      (startProgressAnimation STAGES (startProgressAnimation STAGES initSys 0) 5).pending
        = initSys.pending ++ [(initSys.nextId, 0 + 200, Cb.tick),
                              (initSys.nextId + 1, 5 + 200, Cb.tick)]) :=
  ⟨rfl, c2_double_start_amended STAGES ⟨5, "Initializing...", 800⟩ initSys 0 5 rfl⟩

/-- C3: `stopProgress(true)` yields `currentPercent = 100` and the
completion label, from every component state whatsoever — in particular
from any state of an active run, including the state produced by
`startProgressAnimation` itself (0ms elapsed).  The full `render()`
success path ends in the same display state. -/
theorem c3_stop_true_completes (s : Sys) :
    (stopProgress s true).progress = 100 ∧
    (stopProgress s true).stageLabel = "Complete! ✅" ∧
    (renderSuccessEnd s).progress = 100 ∧
    (renderSuccessEnd s).stageLabel = "Complete! ✅" := by
  cases href : s.ref <;> simp [renderSuccessEnd, stopProgress, jsClearTimeout, href]

/-- C4: `stopProgress(false)` yields `currentPercent = 0` and a cleared
stage label from every state, and the `render()` failure path (which
calls it and then `setRendering(false)` in its `finally` block) ends
with `rendering = false`, the idle state. -/
theorem c4_stop_false_resets (s : Sys) :
    (stopProgress s false).progress = 0 ∧ (stopProgress s false).stageLabel = "" ∧
    (renderFailureEnd s).progress = 0 ∧ (renderFailureEnd s).stageLabel = "" ∧
    (renderFailureEnd s).rendering = false := by
  cases href : s.ref <;> simp [renderFailureEnd, stopProgress, jsClearTimeout, href]

/-- C5 counterexample: with the claim's own example table, at the tick on
which the label switches to "B" (the end of the first stage) the driver
shows 100, not 10; and around 500ms of wall time (the tick at 440ms,
displayed until 520ms) it shows 32, not ≈5 — the driver interpolates from
the current entry's threshold to the next entry's threshold, not from the
previous threshold to the current one, and is not held below 100. -/
theorem c5_example_table_cex :
    ¬ (runP twoStages 0 14).progress = 10 ∧
    (runP twoStages 0 14).stageLabel = "B" ∧
    (runP twoStages 0 14).progress = 100 ∧
    (runP twoStages 0 4).progress = 32 := by
  decide

/-- C5 amended: each tick computes `f = min(elapsed / current.durationMs, 1)`
and `currentPercent = round(current.threshold + (next.threshold -
current.threshold) * f)`.  With the example table the first tick (200ms
after start) shows 10 with label "A", the tick at 440ms shows
`round(10 + (100 - 10) * 240/1000) = 32`, the tick ending the first
stage shows 100 and switches the label to "B", after which the loop stops
scheduling and the value holds at 100 without any `stop(true)`. -/
theorem c5_example_table_amended :
    (runP twoStages 0 1).progress = 10 ∧ (runP twoStages 0 1).stageLabel = "A" ∧
    (runP twoStages 0 4).progress = jsRound (10 + (100 - 10) * (240 / 1000)) ∧
    (runP twoStages 0 13).progress = 96 ∧
    (runP twoStages 0 14).progress = 100 ∧ (runP twoStages 0 14).stageLabel = "B" ∧
    (runP twoStages 0 15).pending = [] ∧
    (runP twoStages 0 20).progress = 100 := by
  decide

/-- C6 counterexample: the last threshold of the program's `STAGES` table
is not 100 (it is 96). -/
theorem c6_stage_table_cex : ¬ lastPct STAGES = 100 := by decide

/-- C6 amended: the program's fixed Stage Table is non-empty with
strictly increasing thresholds and first threshold above 0, but its last
threshold is 96, below 100; likewise the second component's `stgs` table
ends at 95. -/
theorem c6_stage_table_amended :
    0 < STAGES.length ∧ List.Chain' (fun a b => a.pct < b.pct) STAGES ∧
    0 < (STAGES.getD 0 default).pct ∧ lastPct STAGES = 96 ∧
    0 < stgs.length ∧ (stgs.getD (stgs.length - 1) default).progress = 95 := by
  refine ⟨by decide, ?_, by decide, by decide, by decide, by decide⟩
  simp [STAGES, List.chain'_cons]
  norm_num

/-- C7 counterexample: for a table satisfying the §3 invariant and ending
at exactly 100 (the two-entry example table), ticks alone do reach 100 —
after the timeline is consumed the queue is empty and the driver holds at
the last threshold 100, not at the last-but-one threshold (10). -/
theorem c7_hold_cex :
    ValidTable twoStages ∧ lastPct twoStages = 100 ∧
    (runP twoStages 0 16).pending = [] ∧
    (runP twoStages 0 16).progress = 100 :=
  ⟨validTable_twoStages, by decide, by decide, by decide⟩

/-- C7 amended: along any run over a valid table, `currentPercent` never
exceeds the rounded LAST threshold(not the last-but-one); since the
program's `STAGES` table ends at 96, its ticks alone never reach 100. -/
theorem c7_hold_amended (tbl : List StageEntry) (hv : ValidTable tbl)
    (t : ℚ) (n : ℕ) :
    (runP tbl t n).progress ≤ jsRound (lastPct tbl) ∧
    jsRound (lastPct STAGES) = 96 := by
  refine ⟨?_, by decide⟩
  exact ((inv_iter tbl hv (inv_start tbl hv initSys t rfl) n).1).1

/-- C7 amended witness: the bound instantiated at the program's `STAGES`
table after 5 event-loop turns; the rounded last threshold is 96. -/
theorem c7_hold_amended_witness :
    ValidTable STAGES ∧
      ((runP STAGES 0 5).progress ≤ jsRound (lastPct STAGES) ∧
        jsRound (lastPct STAGES) = 96) :=
  ⟨validTable_STAGES, c7_hold_amended STAGES validTable_STAGES 0 5⟩

/-- C8: in every state reachable by a single run, the run's only pending
timer is the one referenced by `progressTimerRef`, so `stopProgress`
(either flavour) leaves an empty timer queue: the pending scheduled tick
is cancelled, and any number of further event-loop turns leaves the
stop-forced terminal state untouched. -/
theorem c8_stop_cancels (tbl : List StageEntry) (hv : ValidTable tbl) (t : ℚ)
    (n m : ℕ) (b : Bool) :
    (stopProgress (runP tbl t n) b).pending = [] ∧
    (stepSys tbl)^[m] (stopProgress (runP tbl t n) b)
      = stopProgress (runP tbl t n) b := by
  have hInv : Inv tbl (runP tbl t n) :=
    (inv_iter tbl hv (inv_start tbl hv initSys t rfl) n).1
  have hpend : (stopProgress (runP tbl t n) b).pending = [] := by
    rcases hInv.2 with hnil | ⟨⟨i, t', cb⟩, hpend, hok⟩
    · rcases href : (runP tbl t n).ref with _ | j <;> cases b <;>
        simp [stopProgress, jsClearTimeout, hnil, href]
    · have href : (runP tbl t n).ref = some i := by
        cases cb with
        | tick => exact hok.1
        | interp c nx st0 => exact hok.1
      cases b <;> simp [stopProgress, jsClearTimeout, hpend, href]
  exact ⟨hpend, Function.iterate_fixed (stepSys_of_pending_nil tbl hpend) m⟩

/-- C8 witness: stopping the `STAGES` run successfully after 2 turns
empties the queue, and 3 further turns change nothing. -/
theorem c8_stop_cancels_witness :
    ValidTable STAGES ∧
      ((stopProgress (runP STAGES 0 2) true).pending = [] ∧
        (stepSys STAGES)^[3] (stopProgress (runP STAGES 0 2) true)
          = stopProgress (runP STAGES 0 2) true) :=
  ⟨validTable_STAGES, c8_stop_cancels STAGES validTable_STAGES 0 2 3 true⟩

/-- C9: with a degenerate single-entry table, `startProgressAnimation`
does not throw (for any entry, even with a zero duration), and every
event-loop turn completes normally: the first tick returns at once under
the `stageIdx >= length - 1` guard, so the run never advances past the
single entry, keeps progress 0 and shows the entry's label. -/
theorem c9_single_entry_safe (e : StageEntry) (t : ℚ) (n : ℕ) :
    (runP [e] t n).crashed = false ∧ (runP [e] t n).stageIdx = 0 ∧
    (runP [e] t n).progress = 0 ∧ (runP [e] t n).stageLabel = e.label := by
  have key : ∀ k, runP [e] t k = startProgressAnimation [e] initSys t ∨
      runP [e] t k = { startProgressAnimation [e] initSys t with pending := [] } := by
    intro k
    induction k with
    | zero => exact Or.inl rfl
    | succ k ih =>
      have hs : runP [e] t (k + 1) = stepSys [e] (runP [e] t k) := by
        rw [runP, runP, Function.iterate_succ_apply']
      rcases ih with h | h
      · right
        rw [hs, h, start_cons]
        simp [stepSys, fireTick, initSys]
      · right
        rw [hs, h, stepSys_of_pending_nil [e] rfl]
  rcases key n with h | h <;> rw [h] <;> simp [start_cons, initSys]

/-- C10: for in-bounds `draggedIdx ≠ idx`, `dragOver` produces a
permutation of the scene list — the dragged scene is removed at
`draggedIdx` and re-inserted so that it sits at index `idx`, the length
is unchanged, and no scene is duplicated or lost. -/
theorem c10_dragOver_perm {α : Type} [Inhabited α] [DecidableEq α] (l : List α)
    (di i : ℕ) (hdi : di < l.length) (hi : i < l.length) (hne : di ≠ i) :
    (dragOver l (some di) i).Perm l ∧
    (dragOver l (some di) i).length = l.length ∧
    (dragOver l (some di) i).getD i default = l.getD di default := by
  have hlen : (l.eraseIdx di).length + 1 = l.length := List.length_eraseIdx_add_one hdi
  have hile : i ≤ (l.eraseIdx di).length := by omega
  have hdrag : dragOver l (some di) i
      = (l.eraseIdx di).insertIdx i (l.getD di default) := by
    simp [dragOver, hne]
  have hperm : ((l.eraseIdx di).insertIdx i (l.getD di default)).Perm l := by
    refine (List.perm_insertIdx _ _ hile).trans ?_
    rw [List.getD_eq_getElem _ _ hdi]
    refine List.Perm.trans ?_ (List.perm_cons_erase (List.getElem_mem hdi)).symm
    exact List.Perm.cons _ (List.erase_getElem hdi).symm
  refine ⟨by rw [hdrag]; exact hperm, ?_, ?_⟩
  · rw [hdrag, List.length_insertIdx _ _ hile]
    omega
  · rw [hdrag]
    have hilt : i < ((l.eraseIdx di).insertIdx i (l.getD di default)).length := by
      rw [List.length_insertIdx _ _ hile]
      omega
    rw [List.getD_eq_getElem _ _ hilt]
    exact List.getElem_insertIdx_self _ _ _ hile

/-- C10 witness: dragging scene index 1 over index 3 in a four-scene
list. -/
theorem c10_dragOver_perm_witness :
    (1:ℕ) < ([10, 20, 30, 40] : List ℕ).length ∧
    (3:ℕ) < ([10, 20, 30, 40] : List ℕ).length ∧
    (1:ℕ) ≠ 3 ∧
    ((dragOver [10, 20, 30, 40] (some 1) 3).Perm [10, 20, 30, 40] ∧
      (dragOver [10, 20, 30, 40] (some 1) 3).length = ([10, 20, 30, 40] : List ℕ).length ∧
      (dragOver [10, 20, 30, 40] (some 1) 3).getD 3 default
        = ([10, 20, 30, 40] : List ℕ).getD 1 default) :=
  ⟨by decide, by decide, by decide,
    c10_dragOver_perm [10, 20, 30, 40] 1 3 (by decide) (by decide) (by decide)⟩

end AvatarProgress
